import Mathlib

/-!
Verification development for the TCP bufferization pass
(src/lib/Dialect/TCP/Transforms/Bufferize.cpp).

The pass converts tensor-valued TCP operations (`tcp.broadcast_to`,
`tcp.matmul`) into buffer-based code: it resolves result shapes
(`bypassResultShapes`), allocates result buffers (`allocateResults`),
lowers `tcp.broadcast_to` to an explicit loop nest
(`LowerBroadcastToToLoopsPattern`), lowers `tcp.matmul` to a zero-fill
followed by a `linalg.matmul` (`BufferizeMatmulOp`), and drives the whole
rewrite through a legality-checked conversion (`TCPBufferizePass`).

The shallow embedding below mirrors that source file definition by
definition; line numbers in comments refer to Bufferize.cpp.
-/

namespace TcpBufferize

/-- Element types of tensors/memrefs, as far as this pass distinguishes
them (the pass only ever constructs one concrete element-typed constant,
a 32-bit float, at line 157-158). -/
inductive ElemType
  | f32
  | f64
  | i1
  | i32
  | i64
  | index
  deriving DecidableEq

/-- A ranked tensor type: per-dimension static extents (`none` marks a
dynamic dimension) plus an element type (mirrors `RankedTensorType`). -/
structure RType where
  shape : List (Option Nat)
  elemTy : ElemType
  deriving DecidableEq

/-- Operation kinds observable by the pass. The first two are the TCP ops
with registered patterns (lines 191-194); the rest are the kinds of the
operations the patterns emit, grouped by how `runOnOperation` declares
them legal (lines 189-199); `other` stands for any operation kind the
pass knows nothing about (identified by an opaque tag). -/
inductive OpKind
  | broadcastTo
  | matmul
  | allocMemRef
  | getExtent
  | linalgFill
  | linalgMatmul
  | stdConstant
  | stdConstantIndex
  | stdDim
  | stdCmpI
  | stdSelect
  | stdLoad
  | stdStore
  | stdTensorFromElements
  | scfFor
  | other (tag : Nat)
  deriving DecidableEq

/-- A symbolic dimension read: `DimOp(operand[operandIdx], dimIdx)`
(lines 36-37 build two of these). -/
inductive DimExpr
  | dim (operandIdx : Nat) (dimIdx : Nat)
  deriving DecidableEq

/-- A symbolic ShapeValue as produced by `bypassResultShapes`: either an
existing operand forwarded verbatim (line 32, the broadcast's shape
operand) or a `TensorFromElementsOp` packing dimension reads
(lines 38-39). -/
inductive ShapeExpr
  | operandValue (operandIdx : Nat)
  | fromElements (elems : List DimExpr)
  deriving DecidableEq

/-- The data of a `tcp.broadcast_to` operation: the runtime shape of its
tensor operand, the runtime extents held by its shape operand, and its
declared result type. -/
structure BroadcastToData where
  operandShape : List Nat
  shapeArg : List Nat
  resultType : RType
  deriving DecidableEq

/-- The data of a `tcp.matmul` operation: runtime shapes of the two
tensor operands and the declared result type. -/
structure MatmulData where
  lhsShape : List Nat
  rhsShape : List Nat
  resultType : RType
  deriving DecidableEq

/-- An operation as seen by the pass: either one of the two TCP ops with
registered patterns, or any other operation, of which the pass observes
only the kind and the result types. -/
inductive GOp
  | broadcastTo (d : BroadcastToData)
  | matmul (d : MatmulData)
  | prim (k : OpKind) (resultTypes : List RType)
  deriving DecidableEq

/-- The kind of an operation. -/
def GOp.kindOf : GOp → OpKind
  | .broadcastTo _ => OpKind.broadcastTo
  | .matmul _ => OpKind.matmul
  | .prim k _ => k

/-- The declared result types of an operation (`op->getResults()`). -/
def GOp.results : GOp → List RType
  | .broadcastTo d => [d.resultType]
  | .matmul d => [d.resultType]
  | .prim _ ts => ts

/-- A runtime operand value: a tensor (of which the pass reads dimension
extents) or a shape (of which the pass reads extent elements). -/
inductive OperVal
  | tensor (shape : List Nat)
  | shapeLit (extents : List Nat)
  deriving DecidableEq

/-- The operand list of an operation. `tcp.broadcast_to` has operands
(tensor, shape); `tcp.matmul` has operands (lhs, rhs). -/
def GOp.operands : GOp → List OperVal
  | .broadcastTo d => [OperVal.tensor d.operandShape, OperVal.shapeLit d.shapeArg]
  | .matmul d => [OperVal.tensor d.lhsShape, OperVal.tensor d.rhsShape]
  | .prim _ _ => []

/-- Runtime meaning of a symbolic dimension read against an operand list:
the extent of the given dimension of the given tensor operand. -/
def denoteDim (ops : List OperVal) : DimExpr → Nat
  | .dim oi di =>
    match ops.getD oi (OperVal.tensor []) with
    | .tensor s => s.getD di 0
    | .shapeLit _ => 0

/-- Runtime meaning of a symbolic ShapeValue against an operand list: the
sequence of extents it holds. -/
def denoteShapeExpr (ops : List OperVal) : ShapeExpr → List Nat
  | .operandValue oi =>
    match ops.getD oi (OperVal.tensor []) with
    | .shapeLit es => es
    | .tensor _ => []
  | .fromElements es => es.map (denoteDim ops)

/-- The function bypassResultShapes (lines 28-45): the per-result ShapeValues of an
operation, together with the kinds of the operations the function itself
creates through its `OpBuilder` while computing them.
For `tcp.broadcast_to` it forwards the shape operand verbatim (line 32,
no ops created); for `tcp.matmul` it creates two `DimOp`s and a
`TensorFromElementsOp` (lines 36-39); for any other kind it returns the
empty list (line 44). -/
def bypassResultShapes : GOp → List ShapeExpr × List OpKind
  | .broadcastTo _ => ([ShapeExpr.operandValue 1], [])
  | .matmul _ =>
    ([ShapeExpr.fromElements [DimExpr.dim 0 0, DimExpr.dim 1 1]],
     [OpKind.stdDim, OpKind.stdDim, OpKind.stdTensorFromElements])
  | .prim _ _ => ([], [])

/-- The function bypassResultShapes including its effect on the surrounding program,
modelled as the list of operation kinds inserted so far: the call returns
the ShapeValues and appends the operations it creates. -/
def bypassResultShapesIn (op : GOp) (prog : List OpKind) :
    List ShapeExpr × List OpKind :=
  ((bypassResultShapes op).1, prog ++ (bypassResultShapes op).2)

/-- The ShapeValue list an allocation run resolves for `op`
(line 51, `auto resultShapes = bypassResultShapes(*op)`). -/
def resolvedShapes (op : GOp) : List ShapeExpr :=
  (bypassResultShapes op).1

/-- A buffer created by `refback::AllocMemRefOp` (lines 56-60): the
memref type copies the result tensor type's static shape and element
type, and the op takes the resolved ShapeValue as its extent operand. -/
structure Buffer where
  statShape : List (Option Nat)
  elemTy : ElemType
  dynShape : ShapeExpr
  deriving DecidableEq

/-- Build one result buffer from a result type and its ShapeValue
(lines 56-60). -/
def mkMemRef (rt : RType) (s : ShapeExpr) : Buffer :=
  Buffer.mk rt.shape rt.elemTy s

/-- Default result type (used only as a `getD` fallback in statements). -/
def rtDefault : RType := RType.mk [] ElemType.f32

/-- Default ShapeValue (used only as a `getD` fallback in statements). -/
def seDefault : ShapeExpr := ShapeExpr.fromElements []

/-- Default buffer (used only as a `getD` fallback in statements). -/
def bufDefault : Buffer := mkMemRef rtDefault seDefault

/-- The buffers `allocateResults` creates (lines 52-62): one per element
of `llvm::zip(op->getResults(), resultShapes)`, i.e. results and shapes
are paired positionally and the zip stops at the shorter list. -/
def allocatedBuffers (op : GOp) : List Buffer :=
  ((op.results.zip (resolvedShapes op)).map fun p => mkMemRef p.1 p.2)

/-- The function allocateResults (lines 47-66): resolves the shapes, creates the
buffers, copies the shapes to the out-parameter, and returns them through
a `FailureOr`. Note the single `return results` at line 65: the function
has no failure return. -/
def allocateResults (op : GOp) : Except Unit (List Buffer × List ShapeExpr) :=
  Except.ok (allocatedBuffers op, resolvedShapes op)

/-- The check mlir::failed on the allocator's `FailureOr` result (checked at
lines 83 and 154). -/
def failed : Except Unit (List Buffer × List ShapeExpr) → Bool
  | Except.error _ => true
  | Except.ok _ => false

/-- The allocation-failure guard both patterns run right after calling
`allocateResults` (lines 83-84 and 154-155): the pattern returns
`failure()` exactly when this is `true`. -/
def patternAllocFailed (op : GOp) : Bool :=
  failed (allocateResults op)

/-- A buffer's runtime contents: a total map from index tuples to stored
elements (out-of-range reads are unconstrained junk, as for a memref). -/
def Buf (α : Type) : Type := List Nat → α

/-- A store `std.store v, buf[idx]`: point update of a buffer. -/
def store {α : Type} (b : Buf α) (idx : List Nat) (v : α) : Buf α :=
  fun q => if q = idx then v else b q

/-- Run the body of one `scf.for %i = 0 to n step 1` loop for
`i = 0, 1, ..., n-1` in order, threading the mutable buffer state. -/
def forRange {α : Type} (n : Nat) (f : Nat → Buf α → Buf α) (b : Buf α) : Buf α :=
  (List.range n).foldl (fun acc i => f i acc) b

/-- Execute a perfectly nested loop nest with the given extents
(lines 112-122 emit one `scf.for` per output dimension, each from 0 to
the dimension's output extent with step 1); the body receives the full
tuple of induction variables, outermost first. -/
def execLoopNest {α : Type} : List Nat → (List Nat → Buf α → Buf α) → Buf α → Buf α
  | [], body, b => body [] b
  | e :: es, body, b =>
    forRange e (fun i acc => execLoopNest es (fun js => body (i :: js)) acc) b

/-- The rewrite-time data `LowerBroadcastToToLoopsPattern` computes
before emitting the loop nest (lines 89-104): the materialized output
extents, the per-input-dimension broadcast flags, and the rank
difference. -/
structure BroadcastLoopNest where
  outputExtents : List Nat
  broadcastFlags : List Bool
  rankDiff : Nat
  deriving DecidableEq

/-- The pattern LowerBroadcastToToLoopsPattern::matchAndRewrite, rewrite-time part
(lines 78-104): take the first resolved ShapeValue (line 86), read one
extent per output dimension from it via `shape.get_extent`
(lines 89-95), compute `rankDiff = R_out - R_in` (line 96), and for each
input dimension emit the runtime comparison
`inputExtent != outputExtents[rankDiff + i]` (lines 97-104). -/
def lowerBroadcastToLoops (d : BroadcastToData) : BroadcastLoopNest :=
  let op := GOp.broadcastTo d
  let resolved := (resolvedShapes op).getD 0 seDefault
  let shapeVal := denoteShapeExpr op.operands resolved
  let outRank := d.resultType.shape.length
  let inRank := d.operandShape.length
  let outputExtents := (List.range outRank).map fun i => shapeVal.getD i 0
  let rankDiff := outRank - inRank
  let flags := (List.range inRank).map fun i =>
    decide (d.operandShape.getD i 0 ≠ outputExtents.getD (rankDiff + i) 0)
  BroadcastLoopNest.mk outputExtents flags rankDiff

/-- The effective read indices the emitted inner loop body computes
(lines 127-134): for each input dimension, `select(broadcasts[i], 0,
inductionVariables[rankDiff + i])`. -/
def readIndexes (flags : List Bool) (rankDiff : Nat) (ivs : List Nat) : List Nat :=
  (List.range flags.length).map fun i =>
    if flags.getD i false = true then 0 else ivs.getD (rankDiff + i) 0

/-- Runtime semantics of the emitted broadcast code (lines 106-139): the
nested loops range over the output extents, and the innermost body loads
`input[readIndexes ...]` and stores it to the output buffer at the full
induction-variable tuple (lines 135-138). -/
def execBroadcastNest {α : Type} (n : BroadcastLoopNest) (input : Buf α)
    (out : Buf α) : Buf α :=
  execLoopNest n.outputExtents
    (fun ivs acc => store acc ivs (input (readIndexes n.broadcastFlags n.rankDiff ivs)))
    out

/-- A typed scalar constant, as built by `rewriter.getF32FloatAttr`
(line 158); the numeric value 0.0 is represented exactly by the integer
0. -/
structure ConstVal where
  ty : ElemType
  val : Int
  deriving DecidableEq

/-- The operations `BufferizeMatmulOp::matchAndRewrite` leaves in the
program, in creation order (lines 153-160): the three shape ops created
inside `bypassResultShapes`, the `refback.alloc_memref`, the fill
constant, `linalg.fill` and `linalg.matmul`. -/
def matmulEmittedKinds : List OpKind :=
  [OpKind.stdDim, OpKind.stdDim, OpKind.stdTensorFromElements,
   OpKind.allocMemRef, OpKind.stdConstant, OpKind.linalgFill,
   OpKind.linalgMatmul]

/-- The result of the matmul pattern's rewrite. -/
structure MatmulRewrite where
  buffers : List Buffer
  fillConst : ConstVal
  emitted : List OpKind
  deriving DecidableEq

/-- The pattern BufferizeMatmulOp::matchAndRewrite (lines 150-163): allocate the
result buffers, build the zero-fill constant — hardcoded at lines
157-158 as `getF32FloatAttr(0.0)`, with no reference to the op's result
element type — then emit fill and matmul. -/
def bufferizeMatmulOp (d : MatmulData) : MatmulRewrite :=
  MatmulRewrite.mk (allocatedBuffers (GOp.matmul d))
    (ConstVal.mk ElemType.f32 0) matmulEmittedKinds

/-- The operations `LowerBroadcastToToLoopsPattern` leaves in the
program, by kind and in creation order, for input rank `inRank` and
output rank `outRank` (lines 78-141): the `refback.alloc_memref`
(via `allocateResults`), per output dimension a `constant` and a
`shape.get_extent` (lines 90-95), per input dimension a `dim` and a
`cmpi` (lines 98-104), the two loop-bound constants (lines 108-109), one
`scf.for` per output dimension (lines 115-122), per input dimension a
`constant` and a `select` (lines 128-134), and the final load and store
(lines 135-138). -/
def broadcastEmittedKinds (inRank outRank : Nat) : List OpKind :=
  [OpKind.allocMemRef]
    ++ (List.range outRank).flatMap (fun _ => [OpKind.stdConstantIndex, OpKind.getExtent])
    ++ (List.range inRank).flatMap (fun _ => [OpKind.stdDim, OpKind.stdCmpI])
    ++ [OpKind.stdConstantIndex, OpKind.stdConstantIndex]
    ++ (List.range outRank).map (fun _ => OpKind.scfFor)
    ++ (List.range inRank).flatMap (fun _ => [OpKind.stdConstantIndex, OpKind.stdSelect])
    ++ [OpKind.stdLoad, OpKind.stdStore]

/-- The legality target of `runOnOperation` (lines 184-199): legal are
`refback.alloc_memref` (line 189), `shape.get_extent` (line 199), the
linalg dialect (line 196), the standard dialect (line 197) and the scf
dialect (line 198). `tcp.broadcast_to` and `tcp.matmul` are explicitly
illegal (lines 192, 194), and unknown kinds are not in the target. -/
def isLegalKind : OpKind → Bool
  | OpKind.broadcastTo => false
  | OpKind.matmul => false
  | OpKind.allocMemRef => true
  | OpKind.getExtent => true
  | OpKind.linalgFill => true
  | OpKind.linalgMatmul => true
  | OpKind.stdConstant => true
  | OpKind.stdConstantIndex => true
  | OpKind.stdDim => true
  | OpKind.stdCmpI => true
  | OpKind.stdSelect => true
  | OpKind.stdLoad => true
  | OpKind.stdStore => true
  | OpKind.stdTensorFromElements => true
  | OpKind.scfFor => true
  | OpKind.other _ => false

/-- Whether a pattern is registered for a kind (lines 191 and 193):
only `tcp.broadcast_to` and `tcp.matmul` have patterns. -/
def hasPattern : OpKind → Bool
  | OpKind.broadcastTo => true
  | OpKind.matmul => true
  | _ => false

/-- One driver step on one operation: if a pattern is registered for the
operation it is rewritten into the operations its pattern emits (the
emitted kinds come from the two patterns in src, see
`broadcastEmittedKinds` and `matmulEmittedKinds`); otherwise the
operation is left unchanged. -/
def convert1 : GOp → List GOp
  | GOp.broadcastTo d =>
    (broadcastEmittedKinds d.operandShape.length d.resultType.shape.length).map
      fun k => GOp.prim k []
  | GOp.matmul d =>
    let _ := d
    matmulEmittedKinds.map fun k => GOp.prim k []
  | GOp.prim k ts => [GOp.prim k ts]

/-- Modelled from the spec: the conversion engine itself
(`applyPartialConversion`, line 201) lives in the host MLIR framework
and is not part of src/; §4.5 of the spec describes it as: scan the
function body in order, rewrite each operation that has a registered
pattern, then verify that every remaining operation's kind is a member
of the LegalityTarget, reporting success exactly when that final check
passes. The pattern set, their emissions and the legality target are
taken from src (lines 184-199). -/
def run (f : List GOp) : Except Unit (List GOp) :=
  let out := f.flatMap convert1
  if out.all (fun op => isLegalKind op.kindOf) then Except.ok out
  else Except.error ()

/-- A concrete `tcp.matmul` operation: lhs 2x3, rhs 3x4, f32 result. -/
def mm0 : MatmulData :=
  MatmulData.mk [2, 3] [3, 4] (RType.mk [some 2, some 4] ElemType.f32)

/-- A concrete operation of a kind unknown to the pass, with one result. -/
def unsupportedOp : GOp :=
  GOp.prim (OpKind.other 0) [RType.mk [] ElemType.f32]

/-- A concrete operation of an unknown kind with two results (and, having
no shape transfer function, zero resolved shapes). -/
def unsupportedOp2 : GOp :=
  GOp.prim (OpKind.other 1)
    [RType.mk [none, none] ElemType.f32, RType.mk [] ElemType.i32]

/-- Another concrete operation of an unknown kind, used to exercise the
allocator on an empty shape list. -/
def c5op : GOp :=
  GOp.prim (OpKind.other 2) [RType.mk [none] ElemType.f64]

/-- A concrete `tcp.broadcast_to`: input shape [1, 2] broadcast to
output shape [3, 2]. -/
def bc0 : BroadcastToData :=
  BroadcastToData.mk [1, 2] [3, 2] (RType.mk [some 3, some 2] ElemType.f32)

/-- A concrete input buffer over Nat elements. -/
def input0 : Buf Nat := fun l => 10 * l.getD 0 0 + l.getD 1 0

/-- A concrete output buffer, initially all 999. -/
def out0 : Buf Nat := fun _ => 999

/-- A concrete function body containing only operations of legal kinds. -/
def legalFun : List GOp :=
  [GOp.prim OpKind.allocMemRef [], GOp.prim OpKind.linalgMatmul []]

/-- A concrete function body mixing a convertible `tcp.matmul` with an
operation of an unsupported kind. -/
def mixedFun : List GOp := [GOp.matmul mm0, unsupportedOp]

/-- Positional access into the zip-then-map list that `allocateResults`
builds: element `i` pairs results[i] with shapes[i]. -/
theorem zip_map_getD {α β γ : Type} (f : α → β → γ) :
    ∀ (l1 : List α) (l2 : List β) (i : Nat) (d1 : α) (d2 : β),
      i < min l1.length l2.length →
      ((l1.zip l2).map fun p => f p.1 p.2).getD i (f d1 d2) =
        f (l1.getD i d1) (l2.getD i d2) := by
  intro l1
  induction l1 with
  | nil => intro l2 i d1 d2 h; simp at h
  | cons a l1 ih =>
    intro l2 i d1 d2 h
    cases l2 with
    | nil => simp at h
    | cons b l2 =>
      cases i with
      | zero => simp
      | succ i =>
        simp only [List.zip_cons_cons, List.map_cons, List.getD_cons_succ]
        apply ih
        simp only [List.length_cons] at h
        omega

/-- Claim C3: for an operation with N results and M resolved shapes,
M ≤ N, the allocator succeeds and produces exactly min(N, M) buffers,
pairing result i with shape i from the front; with M ≤ N that count is
M, so the trailing N - M results get no buffer. -/
theorem allocateResults_count (op : GOp)
    (h : (resolvedShapes op).length ≤ op.results.length) :
    allocateResults op = Except.ok (allocatedBuffers op, resolvedShapes op) ∧
    (allocatedBuffers op).length =
      min op.results.length (resolvedShapes op).length ∧
    (allocatedBuffers op).length = (resolvedShapes op).length ∧
    ∀ i, i < (allocatedBuffers op).length →
      (allocatedBuffers op).getD i bufDefault =
        mkMemRef (op.results.getD i rtDefault)
          ((resolvedShapes op).getD i seDefault) := by
  have hlen : (allocatedBuffers op).length =
      min op.results.length (resolvedShapes op).length := by
    simp [allocatedBuffers]
  refine ⟨rfl, hlen, ?_, ?_⟩
  · rw [hlen]; omega
  · intro i hi
    rw [hlen] at hi
    exact zip_map_getD mkMemRef op.results (resolvedShapes op) i rtDefault
      seDefault hi

/-- Witness for C3: a concrete operation with 2 results and 0 resolved
shapes (M = 0 ≤ N = 2) gets exactly min(2, 0) = 0 buffers. -/
theorem allocateResults_count_witness :
    (resolvedShapes unsupportedOp2).length ≤ unsupportedOp2.results.length ∧
    (allocatedBuffers unsupportedOp2).length =
      min unsupportedOp2.results.length (resolvedShapes unsupportedOp2).length :=
  ⟨by decide, (allocateResults_count unsupportedOp2 (by decide)).2.1⟩

/-- Claim C9: the allocator never takes the failure alternative of its
FailureOr result — it returns success for every operation, with possibly
zero buffers — and when the resolved shape list is empty, index 0 of the
returned buffer list and of the shape list (the accesses the broadcast
pattern performs at lines 85-86) is out of bounds. -/
theorem allocateResults_never_fails (op : GOp) :
    failed (allocateResults op) = false ∧
    ((resolvedShapes op).length = 0 →
      (allocatedBuffers op)[0]? = none ∧ (resolvedShapes op)[0]? = none) := by
  constructor
  · rfl
  · intro h
    have h0 : resolvedShapes op = [] := List.length_eq_zero.mp h
    constructor
    · simp [allocatedBuffers, h0]
    · simp [h0]

/-- Witness for C9: a concrete unsupported-kind operation has an empty
shape list, the allocator still succeeds, and element 0 of the buffer
list is out of bounds. -/
theorem allocateResults_never_fails_witness :
    (resolvedShapes unsupportedOp).length = 0 ∧
    failed (allocateResults unsupportedOp) = false ∧
    (allocatedBuffers unsupportedOp)[0]? = none :=
  ⟨rfl, (allocateResults_never_fails unsupportedOp).1,
   ((allocateResults_never_fails unsupportedOp).2 rfl).1⟩

/-- Counterexample to claim C5: for a concrete operation none of whose
results has a ShapeValue (empty resolved shape list), the
allocation-failure guard that is the patterns' only failure path
(lines 83-84 and 154-155) does not fire: `allocateResults` reports
success, so no pattern would report failure on this operation. -/
theorem pattern_failure_on_missing_shape_counterexample :
    resolvedShapes c5op = [] ∧ patternAllocFailed c5op = false :=
  ⟨rfl, rfl⟩

/-- Claim C5 as amended: a pattern never reports failure because of an
unobtainable ShapeValue — `allocateResults` returns success for every
operation (zero buffers when no shape resolves), so the allocation-failure
branches at lines 83-84 and 154-155 are unreachable and an operation
without a shape transfer function would proceed with zero buffers rather
than fail. -/
theorem patterns_never_fail_allocation (op : GOp) :
    patternAllocFailed op = false := rfl

/-- Counterexample to claim C4: resolving the shapes of a concrete
`tcp.matmul` mutates the program — the resolver inserts two `dim` reads
and a `tensor_from_elements` (lines 36-39) — so the resolver is not free
of mutation. -/
theorem resolver_purity_counterexample :
    (bypassResultShapesIn (GOp.matmul mm0) []).2 =
      [OpKind.stdDim, OpKind.stdDim, OpKind.stdTensorFromElements] ∧
    (bypassResultShapesIn (GOp.matmul mm0) []).2 ≠ [] := by
  refine ⟨rfl, ?_⟩
  decide

/-- Claim C4 as amended: the Shape Transfer Resolver is deterministic
(its ShapeValues do not depend on the state of the program it is called
in) and performs no buffer allocation, but it is not mutation-free: for
`tcp.matmul` it inserts exactly the three shape-computation operations
`dim`, `dim`, `tensor_from_elements` into the program; for every other
kind it inserts nothing. -/
theorem resolver_deterministic_no_alloc (op : GOp) (prog prog2 : List OpKind) :
    (bypassResultShapesIn op prog).1 = (bypassResultShapesIn op prog2).1 ∧
    ((bypassResultShapes op).2.contains OpKind.allocMemRef) = false ∧
    ((bypassResultShapes op).2 = [] ∨
      (bypassResultShapes op).2 =
        [OpKind.stdDim, OpKind.stdDim, OpKind.stdTensorFromElements]) := by
  refine ⟨rfl, ?_, ?_⟩
  · cases op <;> rfl
  · cases op with
    | broadcastTo d => exact Or.inl rfl
    | matmul d => exact Or.inr rfl
    | prim k ts => exact Or.inl rfl

/-- Claim C7: for a `tcp.matmul` with rank-2 operands the resolver
returns exactly one ShapeValue, the 2-element pack of (dimension 0 of
the left operand, dimension 1 of the right operand); its runtime
denotation is the pair (row count of lhs, column count of rhs). -/
theorem matmul_shape_resolution (d : MatmulData)
    (h1 : d.lhsShape.length = 2) (h2 : d.rhsShape.length = 2) :
    resolvedShapes (GOp.matmul d) =
      [ShapeExpr.fromElements [DimExpr.dim 0 0, DimExpr.dim 1 1]] ∧
    (resolvedShapes (GOp.matmul d)).length = 1 ∧
    denoteShapeExpr (GOp.matmul d).operands
        ((resolvedShapes (GOp.matmul d)).getD 0 seDefault) =
      [d.lhsShape.getD 0 0, d.rhsShape.getD 1 0] :=
  ⟨rfl, rfl, rfl⟩

/-- Witness for C7: on the concrete matmul (lhs 2x3, rhs 3x4) the
resolved shape denotes [2, 4]. -/
theorem matmul_shape_resolution_witness :
    mm0.lhsShape.length = 2 ∧ mm0.rhsShape.length = 2 ∧
    denoteShapeExpr (GOp.matmul mm0).operands
        ((resolvedShapes (GOp.matmul mm0)).getD 0 seDefault) = [2, 4] := by
  refine ⟨rfl, rfl, ?_⟩
  rw [(matmul_shape_resolution mm0 rfl rfl).2.2]
  rfl

/-- Claim C8: for an operation of kind BroadcastTo or Matmul, calling the
resolver a second time against the unmodified operation — in the program
state the first call left behind — returns the same ShapeValue list. -/
theorem shape_resolution_deterministic (op : GOp) (prog : List OpKind)
    (h : GOp.kindOf op = OpKind.broadcastTo ∨ GOp.kindOf op = OpKind.matmul) :
    (bypassResultShapesIn op (bypassResultShapesIn op prog).2).1 =
      (bypassResultShapesIn op prog).1 := rfl

/-- Witness for C8: two successive resolver calls on the concrete matmul
agree. -/
theorem shape_resolution_deterministic_witness :
    (GOp.kindOf (GOp.matmul mm0) = OpKind.broadcastTo ∨
      GOp.kindOf (GOp.matmul mm0) = OpKind.matmul) ∧
    (bypassResultShapesIn (GOp.matmul mm0)
        (bypassResultShapesIn (GOp.matmul mm0) []).2).1 =
      (bypassResultShapesIn (GOp.matmul mm0) []).1 :=
  ⟨Or.inr rfl,
   shape_resolution_deterministic (GOp.matmul mm0) [] (Or.inr rfl)⟩

/-- Claim C10: the matmul pattern's zero-fill constant is the hardcoded
32-bit float 0.0 (lines 157-158), for every matmul operation and
independently of the operation's result element type. -/
theorem matmul_fill_constant_is_f32_zero (d : MatmulData) (e : ElemType) :
    (bufferizeMatmulOp d).fillConst = ConstVal.mk ElemType.f32 0 ∧
    (bufferizeMatmulOp d).fillConst =
      (bufferizeMatmulOp (MatmulData.mk d.lhsShape d.rhsShape
        (RType.mk d.resultType.shape e))).fillConst :=
  ⟨rfl, rfl⟩

/-- Operations of legal kinds are untouched by the driver step: neither
pattern matches them. -/
theorem convert1_of_legal (op : GOp) (h : isLegalKind op.kindOf = true) :
    convert1 op = [op] := by
  cases op with
  | broadcastTo d => simp [GOp.kindOf, isLegalKind] at h
  | matmul d => simp [GOp.kindOf, isLegalKind] at h
  | prim k ts => rfl

/-- A function body of only legal kinds is left unchanged by the scan. -/
theorem flatMap_convert1_of_legal :
    ∀ f : List GOp, (∀ op ∈ f, isLegalKind op.kindOf = true) →
      f.flatMap convert1 = f := by
  intro f
  induction f with
  | nil => intro h; rfl
  | cons a f ih =>
    intro h
    have ha := convert1_of_legal a (h a (List.mem_cons_self a f))
    have hf := ih fun op hop => h op (List.mem_cons_of_mem a hop)
    simp [List.flatMap_cons, ha, hf]

/-- Claim C2: a function body containing an operation whose kind has no
registered pattern and is not in the legality target makes `run` report
failure, whatever happens to the other operations. -/
theorem legality_gate_failure (f : List GOp) (op : GOp) (h1 : op ∈ f)
    (h2 : hasPattern op.kindOf = false) (h3 : isLegalKind op.kindOf = false) :
    run f = Except.error () := by
  have hop : convert1 op = [op] := by
    cases op with
    | broadcastTo d => simp [GOp.kindOf, hasPattern] at h2
    | matmul d => simp [GOp.kindOf, hasPattern] at h2
    | prim k ts => rfl
  have hmem : op ∈ f.flatMap convert1 :=
    List.mem_flatMap.mpr ⟨op, h1, by rw [hop]; exact List.mem_singleton_self op⟩
  have hall : (f.flatMap convert1).all (fun o => isLegalKind o.kindOf) = false := by
    cases hcase : (f.flatMap convert1).all (fun o => isLegalKind o.kindOf) with
    | false => rfl
    | true =>
      have := List.all_eq_true.mp hcase op hmem
      rw [h3] at this
      cases this
  show (if (f.flatMap convert1).all (fun o => isLegalKind o.kindOf) = true
        then Except.ok (f.flatMap convert1) else Except.error ()) =
      Except.error ()
  rw [hall]
  simp

/-- Witness for C2: a concrete function holding a convertible matmul and
an unsupported operation; the run fails even though the matmul's own
conversion succeeds. -/
theorem legality_gate_failure_witness :
    unsupportedOp ∈ mixedFun ∧ hasPattern unsupportedOp.kindOf = false ∧
    isLegalKind unsupportedOp.kindOf = false ∧
    run mixedFun = Except.error () :=
  ⟨by decide, rfl, rfl,
   legality_gate_failure mixedFun unsupportedOp (by decide) rfl rfl⟩

/-- Claim C6: running the driver on a function that already contains
only operations of legal kinds returns it unchanged with success; in
particular, since a successful run only ever outputs legal kinds, a
re-run on an already-converted function is a no-op. -/
theorem driver_noop_on_legal (f g : List GOp)
    (h : ∀ op ∈ f, isLegalKind op.kindOf = true)
    (h2 : run f = Except.ok g) :
    g = f ∧ run g = Except.ok g := by
  have hconv := flatMap_convert1_of_legal f h
  have hall : (f.flatMap convert1).all (fun o => isLegalKind o.kindOf) = true := by
    rw [hconv]
    exact List.all_eq_true.mpr h
  have hrun : run f = Except.ok f := by
    show (if (f.flatMap convert1).all (fun o => isLegalKind o.kindOf) = true
          then Except.ok (f.flatMap convert1) else Except.error ()) =
        Except.ok f
    rw [hall, if_pos rfl, hconv]
  rw [hrun] at h2
  have hg : g = f := by
    injection h2 with hh
    exact hh.symm
  refine ⟨hg, ?_⟩
  rw [hg, hrun]

/-- Witness for C6: a concrete all-legal function body is returned
unchanged and re-running is a no-op. -/
theorem driver_noop_on_legal_witness :
    (∀ op ∈ legalFun, isLegalKind op.kindOf = true) ∧
    run legalFun = Except.ok legalFun ∧
    (legalFun = legalFun ∧ run legalFun = Except.ok legalFun) :=
  ⟨by decide, rfl, driver_noop_on_legal legalFun legalFun (by decide) rfl⟩

/-- Folding steps that each preserve a cell's value preserves it. -/
theorem foldl_preserve {α : Type} (l : List Nat) (F : Nat → Buf α → Buf α)
    (q : List Nat) (hF : ∀ i b, F i b q = b q) :
    ∀ b : Buf α, (l.foldl (fun acc i => F i acc) b) q = b q := by
  induction l with
  | nil => intro b; rfl
  | cons a l ih =>
    intro b
    simp only [List.foldl_cons]
    rw [ih (F a b)]
    exact hF a b

/-- One pass of a unit-step loop from 0 to e: if exactly the iteration
`j0 < e` sets cell `q` to `v` (whatever state it starts from) and every
other iteration leaves `q` alone, then after the loop `q` holds `v`. -/
theorem forRange_set {α : Type} (j0 : Nat) (v : α) (q : List Nat)
    (F : Nat → Buf α → Buf α)
    (hset : ∀ b2, F j0 b2 q = v)
    (hframe : ∀ i b2, i ≠ j0 → F i b2 q = b2 q) :
    ∀ (e : Nat) (b : Buf α), j0 < e → forRange e F b q = v := by
  intro e
  induction e with
  | zero => intro b h; exact absurd h (Nat.not_lt_zero j0)
  | succ n ih =>
    intro b h
    show (List.range (n + 1)).foldl (fun acc i => F i acc) b q = v
    rw [List.range_succ, List.foldl_append]
    simp only [List.foldl_cons, List.foldl_nil]
    by_cases hj : j0 = n
    · subst hj
      exact hset _
    · have h2 : n ≠ j0 := fun hh => hj hh.symm
      rw [hframe n _ h2]
      exact ih b (by omega)

/-- Frame property of the emitted store-loop nest: a nest whose body only
stores at indices of the form `g ivs` leaves every cell outside the image
of `g` untouched. -/
theorem execLoopNest_store_frame {α : Type} (f0 : List Nat → α) :
    ∀ (extents : List Nat) (g : List Nat → List Nat) (b : Buf α)
      (q : List Nat),
      (∀ suf : List Nat, q ≠ g suf) →
      execLoopNest extents
        (fun ivs acc => store acc (g ivs) (f0 (g ivs))) b q = b q := by
  intro extents
  induction extents with
  | nil =>
    intro g b q hq
    show store b (g []) (f0 (g [])) q = b q
    unfold store
    rw [if_neg (hq [])]
  | cons e es ih =>
    intro g b q hq
    show forRange e (fun i acc =>
        execLoopNest es
          (fun js acc2 => store acc2 (g (i :: js)) (f0 (g (i :: js)))) acc)
        b q = b q
    apply foldl_preserve
    intro i b2
    exact ih (fun l => g (i :: l)) b2 q (fun suf => hq (i :: suf))

/-- Last-write characterization of the emitted store-loop nest: running
the nest over the given extents, with a body that stores value `f0 (g
ivs)` at index `g ivs` for an injective index transform `g`, leaves
`f0 (g j)` in cell `g j` for every in-bounds index tuple `j`. -/
theorem execLoopNest_store_get {α : Type} (f0 : List Nat → α) :
    ∀ (extents : List Nat) (g : List Nat → List Nat) (b : Buf α)
      (j : List Nat),
      (∀ x y : List Nat, g x = g y → x = y) →
      j.length = extents.length →
      (∀ i, i < extents.length → j.getD i 0 < extents.getD i 0) →
      execLoopNest extents
        (fun ivs acc => store acc (g ivs) (f0 (g ivs))) b (g j) = f0 (g j) := by
  intro extents
  induction extents with
  | nil =>
    intro g b j hinj hlen hbound
    have hj : j = [] := List.length_eq_zero.mp hlen
    subst hj
    show store b (g []) (f0 (g [])) (g []) = f0 (g [])
    unfold store
    rw [if_pos rfl]
  | cons e es ih =>
    intro g b j hinj hlen hbound
    cases j with
    | nil => simp at hlen
    | cons j0 js =>
      show forRange e (fun i acc =>
          execLoopNest es
            (fun js2 acc2 => store acc2 (g (i :: js2)) (f0 (g (i :: js2))))
          acc) b (g (j0 :: js)) = f0 (g (j0 :: js))
      have hlen2 : js.length = es.length := by
        simp only [List.length_cons] at hlen
        omega
      have hbound2 : ∀ i, i < es.length → js.getD i 0 < es.getD i 0 := by
        intro i hi
        have := hbound (i + 1) (by simp only [List.length_cons]; omega)
        simpa using this
      have hj0 : j0 < e := by
        have := hbound 0 (by simp only [List.length_cons]; omega)
        simpa using this
      apply forRange_set j0 (f0 (g (j0 :: js))) (g (j0 :: js))
      · intro b2
        apply ih (fun l => g (j0 :: l)) b2 js ?_ hlen2 hbound2
        intro x y hxy
        have h2 := hinj _ _ hxy
        rw [List.cons.injEq] at h2
        exact h2.2
      · intro i b2 hi
        apply execLoopNest_store_frame
        intro suf heq
        have h2 := hinj _ _ heq
        rw [List.cons.injEq] at h2
        exact hi h2.1.symm
      · exact hj0

/-- Reading every position of a list back with getD reproduces the
list. -/
theorem map_range_getD_self {α : Type} (l : List α) (dflt : α) :
    (List.range l.length).map (fun i => l.getD i dflt) = l := by
  induction l with
  | nil => rfl
  | cons a l ih =>
    rw [List.length_cons, List.range_succ_eq_map, List.map_cons, List.map_map]
    have hc : ((fun i => (a :: l).getD i dflt) ∘ Nat.succ) =
        fun i => l.getD i dflt := by
      funext i
      exact List.getD_cons_succ
    rw [hc, ih]
    rfl

/-- In-range getD over a mapped range evaluates the mapped function. -/
theorem getD_map_range {α : Type} (g : Nat → α) (n i : Nat) (dflt : α)
    (h : i < n) :
    ((List.range n).map g).getD i dflt = g i := by
  rw [List.getD_eq_getElem?_getD, List.getElem?_map, List.getElem?_range h]
  rfl

/-- Claim C1: for a `tcp.broadcast_to` lowered by the broadcast pattern
(input rank R_in, output rank R_out, R_out ≥ R_in, right-aligned), the
generated loop nest leaves, at every in-bounds output index tuple `j`,
`output[j] = input[i]` where `i_k = 0` if the input extent at `k`
differs from the aligned output extent at `R_out - R_in + k`, and
otherwise `i_k = j at position R_out - R_in + k`. -/
theorem broadcast_lowering_correct {α : Type} (d : BroadcastToData)
    (input out : Buf α) (j : List Nat)
    (hrank : d.operandShape.length ≤ d.resultType.shape.length)
    (hsh : d.shapeArg.length = d.resultType.shape.length)
    (hlen : j.length = d.resultType.shape.length)
    (hbound : ∀ i, i < j.length → j.getD i 0 < d.shapeArg.getD i 0) :
    execBroadcastNest (lowerBroadcastToLoops d) input out j =
      input ((List.range d.operandShape.length).map fun k =>
        if d.operandShape.getD k 0 ≠
            d.shapeArg.getD
              (d.resultType.shape.length - d.operandShape.length + k) 0
        then 0
        else j.getD
          (d.resultType.shape.length - d.operandShape.length + k) 0) := by
  have hkey : ((List.range d.resultType.shape.length).map
      fun i => d.shapeArg.getD i 0) = d.shapeArg := by
    rw [← hsh]
    exact map_range_getD_self d.shapeArg 0
  have hOE : (lowerBroadcastToLoops d).outputExtents = d.shapeArg := by
    show ((List.range d.resultType.shape.length).map
        fun i => d.shapeArg.getD i 0) = d.shapeArg
    exact hkey
  have hFL : (lowerBroadcastToLoops d).broadcastFlags =
      (List.range d.operandShape.length).map fun i =>
        decide (d.operandShape.getD i 0 ≠
          d.shapeArg.getD
            (d.resultType.shape.length - d.operandShape.length + i) 0) := by
    show ((List.range d.operandShape.length).map fun i =>
        decide (d.operandShape.getD i 0 ≠
          ((List.range d.resultType.shape.length).map
            fun i2 => d.shapeArg.getD i2 0).getD
            (d.resultType.shape.length - d.operandShape.length + i) 0)) = _
    rw [hkey]
  have hRD : (lowerBroadcastToLoops d).rankDiff =
      d.resultType.shape.length - d.operandShape.length := rfl
  show execLoopNest (lowerBroadcastToLoops d).outputExtents
      (fun ivs acc => store acc ivs
        (input (readIndexes (lowerBroadcastToLoops d).broadcastFlags
          (lowerBroadcastToLoops d).rankDiff ivs))) out j = _
  rw [hOE, hFL, hRD]
  have hjl : j.length = d.shapeArg.length := by rw [hlen, hsh]
  have hmain := execLoopNest_store_get
    (fun l => input (readIndexes
      ((List.range d.operandShape.length).map fun i =>
        decide (d.operandShape.getD i 0 ≠
          d.shapeArg.getD
            (d.resultType.shape.length - d.operandShape.length + i) 0))
      (d.resultType.shape.length - d.operandShape.length) l))
    d.shapeArg (fun l => l) out j (fun x y hxy => hxy) hjl
    (fun i hi => hbound i (by rw [hjl]; exact hi))
  have hread : readIndexes
      ((List.range d.operandShape.length).map fun i =>
        decide (d.operandShape.getD i 0 ≠
          d.shapeArg.getD
            (d.resultType.shape.length - d.operandShape.length + i) 0))
      (d.resultType.shape.length - d.operandShape.length) j =
      (List.range d.operandShape.length).map fun k =>
        if d.operandShape.getD k 0 ≠
            d.shapeArg.getD
              (d.resultType.shape.length - d.operandShape.length + k) 0
        then 0
        else j.getD
          (d.resultType.shape.length - d.operandShape.length + k) 0 := by
    unfold readIndexes
    rw [List.length_map, List.length_range]
    apply List.map_congr_left
    intro k hk
    have hk2 := List.mem_range.mp hk
    rw [getD_map_range _ _ _ _ hk2]
    simp only [decide_eq_true_eq]
  exact hmain.trans (congrArg input hread)

/-- Witness for C1: input shape [1, 2] broadcast to [3, 2]; at output
index [2, 1] the nest leaves input[0, 1] (dimension 0 broadcasts since
1 differs from 3, dimension 1 copies the aligned index). -/
theorem broadcast_lowering_correct_witness :
    (bc0.operandShape.length ≤ bc0.resultType.shape.length ∧
     bc0.shapeArg.length = bc0.resultType.shape.length ∧
     ([2, 1] : List Nat).length = bc0.resultType.shape.length ∧
     ∀ i, i < ([2, 1] : List Nat).length →
       ([2, 1] : List Nat).getD i 0 < bc0.shapeArg.getD i 0) ∧
    execBroadcastNest (lowerBroadcastToLoops bc0) input0 out0 [2, 1] =
      input0 ((List.range bc0.operandShape.length).map fun k =>
        if bc0.operandShape.getD k 0 ≠
            bc0.shapeArg.getD
              (bc0.resultType.shape.length - bc0.operandShape.length + k) 0
        then 0
        else ([2, 1] : List Nat).getD
          (bc0.resultType.shape.length - bc0.operandShape.length + k) 0) :=
  ⟨⟨by decide, by decide, by decide, by decide⟩,
   broadcast_lowering_correct bc0 input0 out0 [2, 1] (by decide) (by decide)
     (by decide) (by decide)⟩

end TcpBufferize
